import Mathlib

/-!
Shallow embedding of the CSV-to-MySQL loader in add_to_db.py and proofs about
its schema inference (get_column_types_from_csv), header sanitization, and
row-insertion loop (insert_csv_data).

Conventions of the embedding:
* Python strings are Lean Strings; character-level operations work on List Char.
* On the inference side, finite float64 values are modelled by the exact
  rationals they denote; NaN cells are modelled as missing
  (Option ... = none), matching pd.isna.  On the loader side Python floats
  are modelled by PyFloat (finite rational, infinity, or nan), because
  int() on an infinite float raises an OverflowError the loader fails to
  catch.
* A pandas dataframe column, as produced by pd.read_csv, is modelled by
  PColumn: an int64 column (never contains NaN), a float64 column (NaN cells
  as none), a datetime64 column, or an object column of strings.  pd.read_csv
  reads a column whose cells are all empty as a float64 column of NaN.
* Exceptions that a function catches and turns into a None / False return are
  modelled with Option.
-/

/-! ### Python string primitives -/

/-- Model of Python str.lower, per character, restricted to ASCII letters
(the headers this program sanitizes are ASCII; Unicode case mapping is out of
scope). -/
def lowerChar (c : Char) : Char :=
  if 65 ≤ c.toNat ∧ c.toNat ≤ 90 then Char.ofNat (c.toNat + 32) else c

/-- Model of Python s.replace(t, r) for a one-character needle t: every
occurrence of t is replaced by r. -/
def replaceChar (t : Char) (r : List Char) : List Char → List Char
  | [] => []
  | c :: cs => (if c = t then r else [c]) ++ replaceChar t r cs

/-- Model of Python s.rstrip(underscore): remove trailing underscores. -/
def rstripUnderscore (s : List Char) : List Char :=
  (s.reverse.dropWhile (fun c => c == '_')).reverse

/-! ### Header sanitization

Lines 63-76 of add_to_db.py (inside get_column_types_from_csv) and lines
140-153 (inside insert_csv_data) each clean a column header: lower-case,
replace space ( ) - . , by underscore, replace % by pct and $ by usd, strip
trailing underscores, and prepend col_ when the result starts with a digit.
When the cleaned string is empty, the subscript clean_column[0] raises
IndexError, which the enclosing try/except turns into a failed run; this is
modelled by returning none.  Python str.isdigit on the reachable ASCII
characters is Char.isDigit. -/

/-- Header sanitization as written in get_column_types_from_csv
(lines 63-76). -/
def sanitizeHeaderInfer (s : String) : Option String :=
  let c0 := s.data.map lowerChar
  let c1 := replaceChar ' ' ['_'] c0
  let c2 := replaceChar '(' ['_'] c1
  let c3 := replaceChar ')' ['_'] c2
  let c4 := replaceChar '-' ['_'] c3
  let c5 := replaceChar '%' ['p', 'c', 't'] c4
  let c6 := replaceChar '$' ['u', 's', 'd'] c5
  let c7 := replaceChar '.' ['_'] c6
  let c8 := replaceChar ',' ['_'] c7
  match rstripUnderscore c8 with
  | [] => none
  | c :: cs =>
    if c.isDigit then some (String.mk ('c' :: 'o' :: 'l' :: '_' :: c :: cs))
    else some (String.mk (c :: cs))

/-- Header sanitization as written, a second time, in insert_csv_data
(lines 140-153). -/
def sanitizeHeaderLoader (s : String) : Option String :=
  let c0 := s.data.map lowerChar
  let c1 := replaceChar ' ' ['_'] c0
  let c2 := replaceChar '(' ['_'] c1
  let c3 := replaceChar ')' ['_'] c2
  let c4 := replaceChar '-' ['_'] c3
  let c5 := replaceChar '%' ['p', 'c', 't'] c4
  let c6 := replaceChar '$' ['u', 's', 'd'] c5
  let c7 := replaceChar '.' ['_'] c6
  let c8 := replaceChar ',' ['_'] c7
  match rstripUnderscore c8 with
  | [] => none
  | c :: cs =>
    if c.isDigit then some (String.mk ('c' :: 'o' :: 'l' :: '_' :: c :: cs))
    else some (String.mk (c :: cs))

/-! ### Schema inference (get_column_types_from_csv, lines 51-127) -/

/-- A dataframe column as produced by pd.read_csv.  int64 columns cannot
contain NaN; float64 columns model NaN cells as none; columns that pandas
could not parse numerically are object columns of strings (NaN as none).
pd.read_csv reads an entirely-empty column as floats with every cell none. -/
inductive PColumn where
  | ints (vals : List Int)
  | floats (vals : List (Option Rat))
  | datetimes (vals : List (Option Int))
  | objs (vals : List (Option String))

/-- pd.api.types.is_numeric_dtype -/
def isNumericDtype : PColumn → Bool
  | .ints _ => true
  | .floats _ => true
  | _ => false

/-- pd.api.types.is_integer_dtype -/
def isIntegerDtype : PColumn → Bool
  | .ints _ => true
  | _ => false

/-- pd.api.types.is_datetime64_any_dtype -/
def isDatetimeDtype : PColumn → Bool
  | .datetimes _ => true
  | _ => false

/-- df[column].dropna().empty -/
def dropnaEmpty : PColumn → Bool
  | .ints vals => vals.isEmpty
  | .floats vals => vals.all fun v => v.isNone
  | .datetimes vals => vals.all fun v => v.isNone
  | .objs vals => vals.all fun v => v.isNone

/-- any(isinstance(x, float) and not x.is_integer() for x in df[column].dropna()):
true when some present cell of a float64 column is non-integral.  Cells of an
int64 column are numpy int64, not Python floats, so the isinstance test is
false there.  A float64 value is an integer exactly when its rational
denominator is 1. -/
def hasFloatsCheck : PColumn → Bool
  | .floats vals => vals.any fun v =>
      match v with
      | some q => decide (q.den ≠ 1)
      | none => false
  | _ => false

def int32UpperBound : Int := 2147483647

def int32LowerBound : Int := -2147483648

/-- df[column].max() > 2147483647 or df[column].min() < -2147483648,
evaluated on an integer column (guarded by a nonempty check at the call
site, so the empty case is unreachable there). -/
def intColumnHasLarge (vals : List Int) : Bool :=
  match vals.max?, vals.min? with
  | some mx, some mn =>
      decide (int32UpperBound < mx) || decide (mn < int32LowerBound)
  | _, _ => false

def intColumnVals : PColumn → List Int
  | .ints vals => vals
  | _ => []

def objColumnVals : PColumn → List (Option String)
  | .objs vals => vals
  | _ => []

/-- Length of str(x) for a cell of an object column: str turns a NaN cell
into the three-character string nan; a string cell keeps its own length
(Python len counts code points, as String.length does). -/
def cellStrLength : Option String → Nat
  | some s => s.length
  | none => 3

/-- The string Python interpolates for safe_length = min(max_length * 1.5, 255)
when 50 <= L < 255.  max_length is a numpy int64, so max_length * 1.5 is the
float64 equal to 3L/2 exactly (L < 2^52); str renders it with a trailing .0
or .5.  Python min returns its first argument on ties, so the result is the
float (rendered with a decimal point) whenever 3L/2 <= 255, and the plain
integer 255 otherwise. -/
def varcharMidLengthStr (L : Nat) : String :=
  if 3 * L ≤ 510 then
    if L % 2 == 0 then s!"{3 * L / 2}.0" else s!"{3 * L / 2}.5"
  else "255"

/-- Text branch of the type inference (lines 100-121).  The none case models
max() over an empty series, which is NaN: every comparison with NaN is false,
so control reaches the final LONGTEXT branch. -/
def textTypeForMaxLength : Option Nat → String
  | none => "LONGTEXT"
  | some L =>
    if L < 50 then s!"VARCHAR({L + 10})"
    else if L < 255 then "VARCHAR(" ++ varcharMidLengthStr L ++ ")"
    else if L ≤ 65535 then "TEXT"
    else if L ≤ 16777215 then "MEDIUMTEXT"
    else "LONGTEXT"

/-- Type inference for one column (lines 78-121).  has_floats and
has_large_values start False and are only computed when the column has
present values; has_large_values additionally requires integer dtype. -/
def inferColumnType (col : PColumn) : String :=
  if isNumericDtype col then
    let hasFloats := if dropnaEmpty col then false else hasFloatsCheck col
    let hasLarge :=
      if dropnaEmpty col then false
      else if isIntegerDtype col then intColumnHasLarge (intColumnVals col)
      else false
    if hasLarge then "BIGINT"
    else if hasFloats || !isIntegerDtype col then "DOUBLE"
    else "INT"
  else if isDatetimeDtype col then "DATETIME"
  else textTypeForMaxLength ((objColumnVals col).map cellStrLength).max?

/-- The loop of get_column_types_from_csv over the columns: an exception on
any column (the IndexError from a header that sanitizes to the empty string)
aborts the whole computation, discarding the partial list. -/
def columnTypesLoop : List (String × PColumn) → Option (List (String × String))
  | [] => some []
  | hc :: rest =>
    match sanitizeHeaderInfer hc.1 with
    | none => none
    | some n =>
      match columnTypesLoop rest with
      | none => none
      | some cts => some ((n, inferColumnType hc.2) :: cts)

/-- get_column_types_from_csv on a dataframe given as header/column pairs:
returns the (sanitized name, type) list together with the original header
list, or none when any step raises, matching the try/except that returns
None (line 127). -/
def getColumnTypesFromCsv (df : List (String × PColumn)) :
    Option (List (String × String) × List String) :=
  match columnTypesLoop df with
  | some columnTypes => some (columnTypes, df.map fun hc => hc.1)
  | none => none

/-! ### The batch loader (insert_csv_data, lines 129-250) -/

/-- A Python float value: a finite value (kept exact as a rational; float64
rounding of finite values is abstracted away, which no claim depends on), a
signed infinity, or nan.  Infinities matter for control flow: int() on an
infinite float raises OverflowError, which the loader does not catch. -/
inductive PyFloat where
  | finite (q : Rat)
  | inf (neg : Bool)
  | nan
  deriving DecidableEq

/-- A non-missing dataframe cell value.  A floatv cell of a dataframe is
never nan (pd.isna intercepts NaN cells as missing), but computed values can
carry nan or an infinity, so the full PyFloat is admitted. -/
inductive Prim where
  | intv (n : Int)
  | floatv (x : PyFloat)
  | strv (s : String)
  deriving DecidableEq

/-- A dataframe cell; none models a missing value (pd.isna). -/
abbrev Cell := Option Prim

def digitsToNat (ds : List Char) : Nat :=
  ds.foldl (fun a c => 10 * a + (c.toNat - 48)) 0

def splitSign : List Char → Bool × List Char
  | '-' :: t => (true, t)
  | '+' :: t => (false, t)
  | l => (false, l)

def takeDigits (l : List Char) : List Char × List Char :=
  (l.takeWhile Char.isDigit, l.dropWhile Char.isDigit)

/-- The optional exponent tail of a Python float literal: either nothing, or
e/E followed by an optionally signed digit string ending the input. -/
def parseExpSuffix : List Char → Option Int
  | [] => some 0
  | c :: t =>
    if c == 'e' || c == 'E' then
      let st := splitSign t
      let dr := takeDigits st.2
      if dr.1.isEmpty || !dr.2.isEmpty then none
      else some (if st.1 then -(digitsToNat dr.1 : Int) else (digitsToNat dr.1 : Int))
    else none

def applyExp (q : Rat) (e : Int) : Rat :=
  if 0 ≤ e then q * (10 : Rat) ^ e.toNat else q / (10 : Rat) ^ (-e).toNat

/-- The magnitude at which a real value rounds to a float64 infinity: the
largest finite float64 is 2^1024 - 2^971, and round-to-nearest-even sends
every magnitude at or above the midpoint 2^1024 - 2^970 to infinity. -/
def float64OverflowBound : Rat := (2 : Rat) ^ (1024 : Nat) - (2 : Rat) ^ (970 : Nat)

/-- Model of Python float(str): surrounding whitespace stripped, optional
sign, then either the case-insensitive spellings inf / infinity / nan, or
digits with an optional fractional part and optional exponent.  A decimal
whose magnitude reaches the float64 overflow bound yields an infinity (so
float of the string 1e400 is inf, not an exception); smaller values are kept
exactly as rationals (float64 rounding and underflow-to-zero of finite
values are abstracted away, which no claim depends on).  Underscore digit
separators are out of scope.  none models the ValueError float() raises on
any other string. -/
def pyFloatOfString (s : String) : Option PyFloat :=
  let cs := ((s.data.dropWhile Char.isWhitespace).reverse.dropWhile Char.isWhitespace).reverse
  let sc := splitSign cs
  let low := sc.2.map lowerChar
  if low = ['i', 'n', 'f'] ∨ low = ['i', 'n', 'f', 'i', 'n', 'i', 't', 'y'] then
    some (.inf sc.1)
  else if low = ['n', 'a', 'n'] then some .nan
  else
    let ir := takeDigits sc.2
    let fr := match ir.2 with
      | '.' :: rest => takeDigits rest
      | _ => ([], ir.2)
    if ir.1.isEmpty && fr.1.isEmpty then none
    else
      match parseExpSuffix fr.2 with
      | none => none
      | some e =>
        let mant : Rat :=
          (digitsToNat ir.1 : Rat) + (digitsToNat fr.1 : Rat) / (10 : Rat) ^ fr.1.length
        let v := applyExp mant e
        if float64OverflowBound ≤ v then some (.inf sc.1)
        else some (.finite (if sc.1 then -v else v))

/-- Python float(val) for a non-missing cell value. -/
def pyFloatOfPrim : Prim → Option PyFloat
  | .intv n => some (.finite (n : Rat))
  | .floatv x => some x
  | .strv s => pyFloatOfString s

/-- Python int() on a finite float: truncation toward zero. -/
def truncToInt (q : Rat) : Int := q.num.tdiv (q.den : Int)

/-- Python str(val) for a non-missing cell value.  Rendering of a
non-integral finite float is abstracted (no claim evaluates it). -/
def pyStrOfPrim : Prim → String
  | .intv n => toString n
  | .floatv (.finite q) => if q.den = 1 then s!"{q.num}.0" else toString q
  | .floatv (.inf neg) => if neg then "-inf" else "inf"
  | .floatv .nan => "nan"
  | .strv s => s

def strHasSub (pat : List Char) : List Char → Bool
  | [] => pat.isEmpty
  | c :: t => pat.isPrefixOf (c :: t) || strHasSub pat t

/-- Python: pat in s -/
def pyContains (s pat : String) : Bool := strHasSub pat.data s.data

/-- table_columns.get(col, a default of the empty string).lower(): the
declared type of a column as fetched by DESCRIBE, lower-cased. -/
def lookupColType (tableTypes : List (String × String)) (col : String) : String :=
  String.mk (((tableTypes.lookup col).getD "").data.map lowerChar)

/-- Per-cell coercion (lines 186-219).  The outer Option is the exception
behaviour: some v means the value v was appended, none means an exception
escaped the coercion.  A missing cell becomes NULL.  For a type containing
int the cell goes through int(float(val)) under except (ValueError,
TypeError): a float() parse failure raises ValueError (caught, NULL), int()
on nan raises ValueError (caught, NULL), but int() on an infinity raises
OverflowError, which that handler does not catch, so the exception escapes
(outer none).  For float/double, float(val) either parses (any PyFloat,
infinities included, is appended) or raises ValueError (caught, NULL).  For
varchar/text the value is stringified; the oversize check only prints a
warning and the untruncated string is kept.  Other types pass the value
through. -/
def coerceValue (colType : String) (cell : Cell) : Option Cell :=
  match cell with
  | none => some none
  | some val =>
    if pyContains colType "int" then
      match pyFloatOfPrim val with
      | some (.finite q) => some (some (.intv (truncToInt q)))
      | some (.inf _) => none
      | some .nan => some none
      | none => some none
    else if pyContains colType "float" || pyContains colType "double" then
      match pyFloatOfPrim val with
      | some x => some (some (.floatv x))
      | none => some none
    else if pyContains colType "varchar" || pyContains colType "text" then
      some (some (.strv (pyStrOfPrim val)))
    else some (some val)

/-- The inner for loop over zip(columns, row) building the values
list of one row; an escaping coercion exception (OverflowError) at any cell aborts the
whole row construction. -/
def rowValuesLoop (tableTypes : List (String × String)) :
    List (String × Cell) → Option (List Cell)
  | [] => some []
  | cv :: rest =>
    match coerceValue (lookupColType tableTypes cv.1) cv.2 with
    | none => none
    | some v =>
      match rowValuesLoop tableTypes rest with
      | none => none
      | some vs => some (v :: vs)

/-- The values list built for one row, or none when a coercion exception
escapes. -/
def rowValues (cols : List String) (tableTypes : List (String × String))
    (cells : List Cell) : Option (List Cell) :=
  rowValuesLoop tableTypes (cols.zip cells)

/-- One dataframe row together with the behaviour of cursor.execute on its
INSERT: driverOk is false when the driver raises mysql.connector.Error for
this row.  The driver is an external collaborator, so its verdict is an
oracle input of the model. -/
structure Row where
  cells : List Cell
  driverOk : Bool

/-- Observable outcome of insert_csv_data: the returned boolean, the
inserted_rows and errors counters, how many commits ran, whether rollback
ran, and the value lists successfully handed to the driver. -/
structure LoadResult where
  ok : Bool
  inserted : Nat
  errors : Nat
  commits : Nat
  rolledBack : Bool
  sent : List (List Cell)

/-- The row loop of insert_csv_data (lines 182-243).  i is the dataframe
index (a RangeIndex, so consecutive from 0); ins and errs thread the
inserted_rows and errors counters.  A coercion exception that escapes the
value construction of a row (OverflowError from an infinite float in an int
column) is caught neither by the per-row except Error nor by the
function-level except Error, reaching the except Exception at line 248:
the function returns False immediately, with no rollback, no error counted,
and no further rows attempted.  Otherwise a successful execute increments
inserted_rows and commits when (i+1) is a multiple of the batch size 100; a
driver error increments errors and, as soon as errors >= 10, rolls back and
returns False with no further rows attempted.  After the last row a final
commit runs and the function returns inserted_rows > 0. -/
def runRows (tt : List (String × String)) (cols : List String) :
    List Row → Nat → Nat → Nat → LoadResult
  | [], _, ins, errs =>
      { ok := decide (0 < ins), inserted := ins, errors := errs,
        commits := 1, rolledBack := false, sent := [] }
  | r :: rest, i, ins, errs =>
      match rowValues cols tt r.cells with
      | none =>
          { ok := false, inserted := ins, errors := errs,
            commits := 0, rolledBack := false, sent := [] }
      | some vals =>
          if r.driverOk then
            let res := runRows tt cols rest (i + 1) (ins + 1) errs
            { res with
                sent := vals :: res.sent,
                commits := res.commits + (if (i + 1) % 100 == 0 then 1 else 0) }
          else
            if 10 ≤ errs + 1 then
              { ok := false, inserted := ins, errors := errs + 1,
                commits := 0, rolledBack := true, sent := [] }
            else
              runRows tt cols rest (i + 1) ins (errs + 1)

/-- insert_csv_data after the column renaming: run the row loop from index 0
with both counters 0.  tt is the DESCRIBE mapping, cols the (sanitized)
dataframe column names. -/
def insertCsvData (tt : List (String × String)) (cols : List String)
    (rows : List Row) : LoadResult :=
  runRows tt cols rows 0 0 0

/-- Number of rows on which the driver would fail. -/
def countFails (rows : List Row) : Nat :=
  rows.countP fun r => !r.driverOk

/-- Number of rows the loop attempts before aborting, when aborting happens
at the k-th driver failure: the length of the shortest prefix containing k
failures. -/
def attemptsUntilAbort (k : Nat) : List Row → Nat
  | [] => 0
  | r :: rest =>
    if r.driverOk then 1 + attemptsUntilAbort k rest
    else if k ≤ 1 then 1
    else 1 + attemptsUntilAbort (k - 1) rest

/-! ### Lemmas about the sanitization pipeline -/

theorem charOfNat_toNat (n : Nat) (h : n < 55296) : (Char.ofNat n).toNat = n := by
  rw [Char.ofNat, dif_pos (Or.inl h)]
  rfl

theorem lowerChar_idem (c : Char) : lowerChar (lowerChar c) = lowerChar c := by
  unfold lowerChar
  by_cases h : 65 ≤ c.toNat ∧ c.toNat ≤ 90
  · rw [if_pos h]
    have ht : (Char.ofNat (c.toNat + 32)).toNat = c.toNat + 32 :=
      charOfNat_toNat _ (by omega)
    rw [if_neg (by omega)]
  · rw [if_neg h, if_neg h]

/-- The characters that the sanitization rewrites: space, parentheses,
hyphen, percent, dollar, period, comma. -/
def isSpecialHeaderChar (c : Char) : Bool :=
  c == ' ' || c == '(' || c == ')' || c == '-' || c == '%' || c == '$' || c == '.' || c == ','

theorem mem_replaceChar {c t : Char} {r s : List Char} (h : c ∈ replaceChar t r s) :
    c ∈ r ∨ (c ∈ s ∧ c ≠ t) := by
  induction s with
  | nil => simp [replaceChar] at h
  | cons a as ih =>
    simp only [replaceChar, List.mem_append] at h
    rcases h with h | h
    · by_cases ha : a = t
      · rw [if_pos ha] at h
        exact Or.inl h
      · rw [if_neg ha] at h
        simp only [List.mem_singleton] at h
        subst h
        exact Or.inr ⟨List.mem_cons_self _ _, ha⟩
    · rcases ih h with h | ⟨h1, h2⟩
      · exact Or.inl h
      · exact Or.inr ⟨List.mem_cons_of_mem _ h1, h2⟩

theorem replaceChar_fix {t : Char} {r : List Char} {s : List Char} (h : t ∉ s) :
    replaceChar t r s = s := by
  induction s with
  | nil => rfl
  | cons a as ih =>
    simp only [List.mem_cons, not_or] at h
    rw [replaceChar, if_neg (fun ha => h.1 ha.symm), ih h.2]
    rfl

theorem map_lowerChar_fix {s : List Char} (h : ∀ c ∈ s, lowerChar c = c) :
    s.map lowerChar = s := by
  induction s with
  | nil => rfl
  | cons a as ih =>
    rw [List.map_cons, h a (List.mem_cons_self _ _), ih (fun c hc => h c (List.mem_cons_of_mem _ hc))]

theorem dropWhile_head_false {p : Char → Bool} :
    ∀ {l : List Char} {c : Char} {cs : List Char}, l.dropWhile p = c :: cs → p c = false := by
  intro l
  induction l with
  | nil => intro c cs h; simp [List.dropWhile] at h
  | cons a as ih =>
    intro c cs h
    by_cases ha : p a = true
    · rw [List.dropWhile_cons, if_pos ha] at h
      exact ih h
    · rw [List.dropWhile_cons, if_neg ha] at h
      cases h
      simpa using ha

theorem mem_rstripUnderscore {c : Char} {s : List Char} (h : c ∈ rstripUnderscore s) :
    c ∈ s := by
  unfold rstripUnderscore at h
  rw [List.mem_reverse] at h
  have h2 : c ∈ s.reverse := (List.dropWhile_sublist _).subset h
  rwa [List.mem_reverse] at h2

theorem rstripUnderscore_getLast {s : List Char} {x : Char}
    (h : (rstripUnderscore s).getLast? = some x) : x ≠ '_' := by
  unfold rstripUnderscore at h
  rw [← List.head?_reverse, List.reverse_reverse] at h
  cases hd : (s.reverse.dropWhile (fun c => c == '_')) with
  | nil => rw [hd] at h; exact absurd h (by simp)
  | cons a as =>
    rw [hd] at h
    have ha := dropWhile_head_false hd
    simp only [List.head?_cons, Option.some.injEq] at h
    subst h
    simpa using ha

theorem rstripUnderscore_fix {s : List Char} (h : ∀ x, s.getLast? = some x → x ≠ '_') :
    rstripUnderscore s = s := by
  unfold rstripUnderscore
  cases hr : s.reverse with
  | nil =>
    have : s = [] := by
      have := congrArg List.reverse hr
      simpa using this
    subst this
    rfl
  | cons a as =>
    have hlast : s.getLast? = some a := by
      rw [← List.head?_reverse, hr]
      rfl
    have ha : (a == '_') = false := by
      simpa using h a hlast
    rw [List.dropWhile_cons, if_neg (by simp [ha])]
    rw [← hr, List.reverse_reverse]

/-- The full replacement chain of the sanitization, applied in the textual
order of the code. -/
def replacedAll (l : List Char) : List Char :=
  replaceChar ',' ['_'] (replaceChar '.' ['_'] (replaceChar '$' ['u', 's', 'd']
    (replaceChar '%' ['p', 'c', 't'] (replaceChar '-' ['_'] (replaceChar ')' ['_']
      (replaceChar '(' ['_'] (replaceChar ' ' ['_'] l)))))))

/-- The cleaned header before the digit-prefix step. -/
def cleanedHeader (s : String) : List Char :=
  rstripUnderscore (replacedAll (s.data.map lowerChar))

theorem sanitizeHeaderInfer_eq (s : String) :
    sanitizeHeaderInfer s =
      match cleanedHeader s with
      | [] => none
      | c :: cs =>
        if c.isDigit then some (String.mk ('c' :: 'o' :: 'l' :: '_' :: c :: cs))
        else some (String.mk (c :: cs)) := rfl

theorem replaceChar_chars {t : Char} {r s : List Char} {P : Char → Prop}
    (hr : ∀ c ∈ r, P c) (hs : ∀ c ∈ s, c ≠ t → P c) :
    ∀ c ∈ replaceChar t r s, P c := by
  intro c hc
  rcases mem_replaceChar hc with h | ⟨h1, h2⟩
  · exact hr c h
  · exact hs c h1 h2

theorem replacedAll_clean {s : List Char} :
    ∀ c ∈ replacedAll (s.map lowerChar), lowerChar c = c ∧ isSpecialHeaderChar c = false := by
  intro c hc
  unfold replacedAll at hc
  rcases mem_replaceChar hc with h | ⟨hc, hne1⟩
  · simp only [List.mem_singleton] at h
    subst h
    exact ⟨by decide, by decide⟩
  rcases mem_replaceChar hc with h | ⟨hc, hne2⟩
  · simp only [List.mem_singleton] at h
    subst h
    exact ⟨by decide, by decide⟩
  rcases mem_replaceChar hc with h | ⟨hc, hne3⟩
  · simp only [List.mem_cons, List.not_mem_nil, or_false] at h
    rcases h with rfl | rfl | rfl
    · exact ⟨by decide, by decide⟩
    · exact ⟨by decide, by decide⟩
    · exact ⟨by decide, by decide⟩
  rcases mem_replaceChar hc with h | ⟨hc, hne4⟩
  · simp only [List.mem_cons, List.not_mem_nil, or_false] at h
    rcases h with rfl | rfl | rfl
    · exact ⟨by decide, by decide⟩
    · exact ⟨by decide, by decide⟩
    · exact ⟨by decide, by decide⟩
  rcases mem_replaceChar hc with h | ⟨hc, hne5⟩
  · simp only [List.mem_singleton] at h
    subst h
    exact ⟨by decide, by decide⟩
  rcases mem_replaceChar hc with h | ⟨hc, hne6⟩
  · simp only [List.mem_singleton] at h
    subst h
    exact ⟨by decide, by decide⟩
  rcases mem_replaceChar hc with h | ⟨hc, hne7⟩
  · simp only [List.mem_singleton] at h
    subst h
    exact ⟨by decide, by decide⟩
  rcases mem_replaceChar hc with h | ⟨hc, hne8⟩
  · simp only [List.mem_singleton] at h
    subst h
    exact ⟨by decide, by decide⟩
  obtain ⟨a, _, rfl⟩ := List.mem_map.mp hc
  refine ⟨lowerChar_idem a, ?_⟩
  simp [isSpecialHeaderChar, hne1, hne2, hne3, hne4, hne5, hne6, hne7, hne8]

theorem cleanedHeader_clean {s : String} :
    ∀ c ∈ cleanedHeader s, lowerChar c = c ∧ isSpecialHeaderChar c = false :=
  fun c hc => replacedAll_clean c (mem_rstripUnderscore hc)

theorem cleanedHeader_lastNotUnderscore {s : String} :
    ∀ x, (cleanedHeader s).getLast? = some x → x ≠ '_' :=
  fun _ h => rstripUnderscore_getLast h

theorem replacedAll_fix {l : List Char} (h : ∀ c ∈ l, isSpecialHeaderChar c = false) :
    replacedAll l = l := by
  have hmem : ∀ t : Char, isSpecialHeaderChar t = true → t ∉ l := by
    intro t ht hmem
    rw [h t hmem] at ht
    exact Bool.false_ne_true ht
  unfold replacedAll
  rw [replaceChar_fix (hmem ' ' (by decide)), replaceChar_fix (hmem '(' (by decide)),
    replaceChar_fix (hmem ')' (by decide)), replaceChar_fix (hmem '-' (by decide)),
    replaceChar_fix (hmem '%' (by decide)), replaceChar_fix (hmem '$' (by decide)),
    replaceChar_fix (hmem '.' (by decide)), replaceChar_fix (hmem ',' (by decide))]

theorem cleanedHeader_of_clean {l : List Char}
    (hclean : ∀ c ∈ l, lowerChar c = c ∧ isSpecialHeaderChar c = false)
    (hlast : ∀ x, l.getLast? = some x → x ≠ '_') :
    cleanedHeader (String.mk l) = l := by
  unfold cleanedHeader
  have hdata : (String.mk l).data = l := rfl
  rw [hdata, map_lowerChar_fix (fun c hc => (hclean c hc).1),
    replacedAll_fix (fun c hc => (hclean c hc).2), rstripUnderscore_fix hlast]

/-- Structure of any successful sanitization output: all characters are
already lower-case and non-special, the last character is not an underscore,
the result is nonempty, and the first character is not a digit. -/
theorem sanitizeHeaderInfer_some_props {x y : String} (h : sanitizeHeaderInfer x = some y) :
    (∀ c ∈ y.data, lowerChar c = c ∧ isSpecialHeaderChar c = false) ∧
    (∀ a, y.data.getLast? = some a → a ≠ '_') ∧
    y.data ≠ [] ∧
    (∀ c, y.data.head? = some c → c.isDigit = false) := by
  rw [sanitizeHeaderInfer_eq] at h
  cases hc : cleanedHeader x with
  | nil => rw [hc] at h; exact absurd h (by simp)
  | cons c cs =>
    rw [hc] at h
    have hclean : ∀ a ∈ c :: cs, lowerChar a = a ∧ isSpecialHeaderChar a = false := by
      intro a ha
      exact cleanedHeader_clean (s := x) a (by rw [hc]; exact ha)
    have hlast : ∀ a, (c :: cs).getLast? = some a → a ≠ '_' := by
      intro a ha
      exact cleanedHeader_lastNotUnderscore (s := x) a (by rw [hc]; exact ha)
    replace h : (if c.isDigit then some (String.mk ('c' :: 'o' :: 'l' :: '_' :: c :: cs))
        else some (String.mk (c :: cs))) = some y := h
    by_cases hd : c.isDigit
    · rw [if_pos hd] at h
      injection h with h
      subst h
      have hdata : (String.mk ('c' :: 'o' :: 'l' :: '_' :: c :: cs)).data =
          'c' :: 'o' :: 'l' :: '_' :: c :: cs := rfl
      rw [hdata]
      refine ⟨?_, ?_, by simp, ?_⟩
      · intro a ha
        simp only [List.mem_cons] at ha
        rcases ha with rfl | rfl | rfl | rfl | rfl | ha
        · exact ⟨by decide, by decide⟩
        · exact ⟨by decide, by decide⟩
        · exact ⟨by decide, by decide⟩
        · exact ⟨by decide, by decide⟩
        · exact hclean a (List.mem_cons_self _ _)
        · exact hclean a (List.mem_cons_of_mem _ ha)
      · intro a ha
        rw [List.getLast?_cons_cons, List.getLast?_cons_cons, List.getLast?_cons_cons,
          List.getLast?_cons_cons] at ha
        exact hlast a ha
      · intro a ha
        simp only [List.head?_cons, Option.some.injEq] at ha
        subst ha
        decide
    · rw [if_neg hd] at h
      injection h with h
      subst h
      have hdata : (String.mk (c :: cs)).data = c :: cs := rfl
      rw [hdata]
      refine ⟨hclean, hlast, by simp, ?_⟩
      intro a ha
      simp only [List.head?_cons, Option.some.injEq] at ha
      subst ha
      simpa using hd

/-- Claim C3: header sanitization is idempotent.  If sanitizing x succeeds
with result y, then sanitizing y succeeds and returns y unchanged. -/
theorem sanitizeHeaderInfer_idempotent (x y : String)
    (h : sanitizeHeaderInfer x = some y) : sanitizeHeaderInfer y = some y := by
  obtain ⟨hclean, hlast, hne, hhead⟩ := sanitizeHeaderInfer_some_props h
  rw [sanitizeHeaderInfer_eq]
  have hch : cleanedHeader y = y.data := cleanedHeader_of_clean hclean hlast
  rw [hch]
  cases hyd : y.data with
  | nil => exact absurd hyd hne
  | cons c cs =>
    have hd : c.isDigit = false := by
      apply hhead
      rw [hyd]
      rfl
    show (if c.isDigit then some (String.mk ('c' :: 'o' :: 'l' :: '_' :: c :: cs))
      else some (String.mk (c :: cs))) = some y
    rw [if_neg (by simp [hd]), ← hyd]

/-- Witness for C3: the sanitization of a concrete header is a fixed point
of sanitization. -/
theorem sanitizeHeaderInfer_idempotent_witness : sanitizeHeaderInfer "a_b" = some "a_b" :=
  sanitizeHeaderInfer_idempotent "A b" "a_b" (by decide)

/-- Claim C5: the loader re-derives sanitized column names identically to
the schema inferencer. -/
theorem sanitizeHeaderLoader_eq_sanitizeHeaderInfer (s : String) :
    sanitizeHeaderLoader s = sanitizeHeaderInfer s := rfl

/-- Claim C4 counterexample: two distinct headers sanitize to the same name,
so the sanitized names of a table are not unique.  The inferencer has no
deduplication step. -/
theorem sanitizedNames_not_unique :
    getColumnTypesFromCsv [("a b", PColumn.objs [some "x"]), ("a_b", PColumn.objs [some "x"])] =
      some ([("a_b", "VARCHAR(11)"), ("a_b", "VARCHAR(11)")], ["a b", "a_b"]) ∧
    ("a b" : String) ≠ "a_b" ∧
    ¬ (["a_b", "a_b"] : List String).Nodup :=
  ⟨by decide, by decide, by decide⟩

/-- Claim C4, amended: every sanitized column name is a valid identifier in
the sense of being nonempty and not starting with a digit; uniqueness within
a table is not guaranteed (see the counterexample). -/
theorem sanitizeHeaderInfer_valid_identifier (x y : String)
    (h : sanitizeHeaderInfer x = some y) :
    y ≠ "" ∧ (∀ c, y.data.head? = some c → c.isDigit = false) := by
  obtain ⟨_, _, hne, hhead⟩ := sanitizeHeaderInfer_some_props h
  refine ⟨?_, hhead⟩
  intro he
  apply hne
  rw [he]

/-- Witness for the amended C4 at a header that needs the digit prefix. -/
theorem sanitizeHeaderInfer_valid_identifier_witness :
    ("col_9_col" : String) ≠ "" ∧
    (∀ c, ("col_9_col" : String).data.head? = some c → c.isDigit = false) :=
  sanitizeHeaderInfer_valid_identifier "9 Col" "col_9_col" (by decide)

theorem columnTypesLoop_none {df : List (String × PColumn)} {h : String} {col : PColumn}
    (hmem : (h, col) ∈ df) (hs : sanitizeHeaderInfer h = none) :
    columnTypesLoop df = none := by
  induction df with
  | nil => simp at hmem
  | cons hc rest ih =>
    rcases List.mem_cons.mp hmem with heq | hmem2
    · rw [← heq]
      simp [columnTypesLoop, hs]
    · cases hsan : sanitizeHeaderInfer hc.1 <;> simp [columnTypesLoop, hsan, ih hmem2]

/-- A header whose characters are only underscores, periods, spaces and
commas cleans to the empty string, so clean_column[0] raises and the
sanitization fails. -/
theorem sanitize_onlySeparators {s : String}
    (h : ∀ c ∈ s.data, c = '_' ∨ c = '.' ∨ c = ' ' ∨ c = ',') :
    sanitizeHeaderInfer s = none := by
  rw [sanitizeHeaderInfer_eq]
  suffices hc : cleanedHeader s = [] by rw [hc]
  have hlow : s.data.map lowerChar = s.data := by
    apply map_lowerChar_fix
    intro c hc
    rcases h c hc with rfl | rfl | rfl | rfl <;> decide
  unfold cleanedHeader replacedAll
  rw [hlow]
  have h1 : ∀ c ∈ replaceChar ' ' ['_'] s.data, c = '_' ∨ c = '.' ∨ c = ',' := by
    apply replaceChar_chars
    · intro c hc
      simp only [List.mem_singleton] at hc
      exact Or.inl hc
    · intro c hc hne
      rcases h c hc with rfl | rfl | rfl | rfl
      · exact Or.inl rfl
      · exact Or.inr (Or.inl rfl)
      · exact absurd rfl hne
      · exact Or.inr (Or.inr rfl)
  have e2 : replaceChar '(' ['_'] (replaceChar ' ' ['_'] s.data) =
      replaceChar ' ' ['_'] s.data := by
    apply replaceChar_fix
    intro hmem
    rcases h1 _ hmem with h2 | h2 | h2 <;> exact absurd h2 (by decide)
  rw [e2]
  have e3 : replaceChar ')' ['_'] (replaceChar ' ' ['_'] s.data) =
      replaceChar ' ' ['_'] s.data := by
    apply replaceChar_fix
    intro hmem
    rcases h1 _ hmem with h2 | h2 | h2 <;> exact absurd h2 (by decide)
  rw [e3]
  have e4 : replaceChar '-' ['_'] (replaceChar ' ' ['_'] s.data) =
      replaceChar ' ' ['_'] s.data := by
    apply replaceChar_fix
    intro hmem
    rcases h1 _ hmem with h2 | h2 | h2 <;> exact absurd h2 (by decide)
  rw [e4]
  have e5 : replaceChar '%' ['p', 'c', 't'] (replaceChar ' ' ['_'] s.data) =
      replaceChar ' ' ['_'] s.data := by
    apply replaceChar_fix
    intro hmem
    rcases h1 _ hmem with h2 | h2 | h2 <;> exact absurd h2 (by decide)
  rw [e5]
  have e6 : replaceChar '$' ['u', 's', 'd'] (replaceChar ' ' ['_'] s.data) =
      replaceChar ' ' ['_'] s.data := by
    apply replaceChar_fix
    intro hmem
    rcases h1 _ hmem with h2 | h2 | h2 <;> exact absurd h2 (by decide)
  rw [e6]
  have h7 : ∀ c ∈ replaceChar '.' ['_'] (replaceChar ' ' ['_'] s.data), c = '_' ∨ c = ',' := by
    apply replaceChar_chars
    · intro c hc
      simp only [List.mem_singleton] at hc
      exact Or.inl hc
    · intro c hc hne
      rcases h1 c hc with rfl | rfl | rfl
      · exact Or.inl rfl
      · exact absurd rfl hne
      · exact Or.inr rfl
  have h8 : ∀ c ∈ replaceChar ',' ['_']
      (replaceChar '.' ['_'] (replaceChar ' ' ['_'] s.data)), c = '_' := by
    apply replaceChar_chars
    · intro c hc
      simp only [List.mem_singleton] at hc
      exact hc
    · intro c hc hne
      rcases h7 c hc with rfl | rfl
      · rfl
      · exact absurd rfl hne
  unfold rstripUnderscore
  have hrev : ∀ a ∈ (replaceChar ',' ['_']
      (replaceChar '.' ['_'] (replaceChar ' ' ['_'] s.data))).reverse, (a == '_') = true := by
    intro a ha
    rw [List.mem_reverse] at ha
    rw [h8 a ha]
    decide
  rw [List.dropWhile_eq_nil_iff.mpr hrev, List.reverse_nil]

/-- Claim C10: a header that sanitizes to the empty string makes
get_column_types_from_csv take its exception branch and return None; headers
made only of underscores, periods, spaces or commas do sanitize to empty. -/
theorem emptySanitize_aborts_inference :
    (∀ (df : List (String × PColumn)) (h : String) (col : PColumn),
        (h, col) ∈ df → sanitizeHeaderInfer h = none → getColumnTypesFromCsv df = none) ∧
    (∀ s : String, (∀ c ∈ s.data, c = '_' ∨ c = '.' ∨ c = ' ' ∨ c = ',') →
        sanitizeHeaderInfer s = none) := by
  constructor
  · intro df h col hmem hs
    unfold getColumnTypesFromCsv
    rw [columnTypesLoop_none hmem hs]
  · intro s hchars
    exact sanitize_onlySeparators hchars

/-- Witness for C10 at the all-underscore header. -/
theorem emptySanitize_aborts_inference_witness :
    getColumnTypesFromCsv [("___", PColumn.objs [some "x"])] = none ∧
    sanitizeHeaderInfer "___" = none :=
  ⟨emptySanitize_aborts_inference.1 _ "___" (PColumn.objs [some "x"]) (by simp)
      (emptySanitize_aborts_inference.2 "___" (by decide)),
    emptySanitize_aborts_inference.2 "___" (by decide)⟩

/-! ### Schema inference claims -/

/-- Claim C1 counterexample: a column in which every value is missing is
read by pandas as a float64 column of NaN, so it is numeric-dtyped and gets
DOUBLE, not the text-branch VARCHAR(10) the claim asserts. -/
theorem allMissing_column_counterexample :
    inferColumnType (PColumn.floats [none, none]) = "DOUBLE" ∧
    inferColumnType (PColumn.floats [none, none]) ≠ "VARCHAR(10)" :=
  ⟨by decide, by decide⟩

/-- Claim C1, amended: every all-missing column (float64 of NaN after
pd.read_csv, of any height) is typed DOUBLE. -/
theorem inferColumnType_all_missing_double (n : Nat) :
    inferColumnType (PColumn.floats (List.replicate n none)) = "DOUBLE" := by
  have hde : dropnaEmpty (PColumn.floats (List.replicate n none)) = true := by
    simp [dropnaEmpty, List.all_eq_true, List.mem_replicate]
  simp [inferColumnType, hde, isNumericDtype, isIntegerDtype]

set_option maxRecDepth 4000 in
/-- Claim C2: evaluation of the text branch.  Maximum length 40 gives
VARCHAR(50) and 300 gives TEXT as the claim says, but for lengths in
[50, 255) the code interpolates the Python float min(L * 1.5, 255) directly
into the type string, producing VARCHAR(150.0) for L = 100 instead of the
VARCHAR(150) the claim (and valid MySQL syntax) requires. -/
theorem textColumn_varchar_length_formatting :
    inferColumnType (PColumn.objs [some (String.mk (List.replicate 40 'a'))]) = "VARCHAR(50)" ∧
    inferColumnType (PColumn.objs [some (String.mk (List.replicate 100 'a'))]) = "VARCHAR(150.0)" ∧
    inferColumnType (PColumn.objs [some (String.mk (List.replicate 100 'a'))]) ≠ "VARCHAR(150)" ∧
    inferColumnType (PColumn.objs [some (String.mk (List.replicate 300 'a'))]) = "TEXT" :=
  ⟨by decide, by decide, by decide, by decide⟩

/-- Claim C6 counterexample: a numeric column holding the integer 3000000000
(outside the signed 32-bit range) and one missing value is float64, so the
has_large_values check never runs and the column is typed DOUBLE, not the
BIGINT the claim asserts. -/
theorem largeInt_with_missing_counterexample :
    inferColumnType (PColumn.floats [some 3000000000, none]) = "DOUBLE" ∧
    (3000000000 : Rat).den = 1 ∧
    int32UpperBound < (3000000000 : Int) ∧
    inferColumnType (PColumn.floats [some 3000000000, none]) ≠ "BIGINT" :=
  ⟨by decide, by decide, by decide, by decide⟩

theorem intColumnHasLarge_iff {vals : List Int} (h : vals ≠ []) :
    intColumnHasLarge vals = true ↔
      ∃ v ∈ vals, int32UpperBound < v ∨ v < int32LowerBound := by
  obtain ⟨mx, hmx⟩ : ∃ m, vals.max? = some m := by
    cases hm : vals.max? with
    | none => exact absurd (List.max?_eq_none_iff.mp hm) h
    | some m => exact ⟨m, rfl⟩
  obtain ⟨mn, hmn⟩ : ∃ m, vals.min? = some m := by
    cases hm : vals.min? with
    | none => exact absurd (List.min?_eq_none_iff.mp hm) h
    | some m => exact ⟨m, rfl⟩
  have hmxmem : mx ∈ vals := List.max?_mem (fun a b => max_choice a b) hmx
  have hmxle : ∀ b ∈ vals, b ≤ mx := (List.max?_le_iff (fun a b c => max_le_iff) hmx).1 le_rfl
  have hmnmem : mn ∈ vals := List.min?_mem (fun a b => min_choice a b) hmn
  have hmnle : ∀ b ∈ vals, mn ≤ b := (List.le_min?_iff (fun a b c => le_min_iff) hmn).1 le_rfl
  unfold intColumnHasLarge
  rw [hmx, hmn]
  show (decide (int32UpperBound < mx) || decide (mn < int32LowerBound)) = true ↔ _
  simp only [Bool.or_eq_true, decide_eq_true_eq]
  constructor
  · rintro (h1 | h1)
    · exact ⟨mx, hmxmem, Or.inl h1⟩
    · exact ⟨mn, hmnmem, Or.inr h1⟩
  · rintro ⟨v, hvmem, h1 | h1⟩
    · exact Or.inl (lt_of_lt_of_le h1 (hmxle v hvmem))
    · exact Or.inr (lt_of_le_of_lt (hmnle v hvmem) h1)

/-- Claim C6, amended: a column read with integer dtype (all values present
and integral) is BIGINT exactly when some value lies outside the signed
32-bit range, and INT otherwise; a numeric column read as float64 (because
of a missing or non-integral value) is always DOUBLE, even when it contains
an integer outside the 32-bit range. -/
theorem numericColumn_type_characterization :
    (∀ vals : List Int,
        inferColumnType (PColumn.ints vals) =
          if ∃ v ∈ vals, int32UpperBound < v ∨ v < int32LowerBound then "BIGINT"
          else "INT") ∧
    (∀ vals : List (Option Rat), inferColumnType (PColumn.floats vals) = "DOUBLE") := by
  constructor
  · intro vals
    cases vals with
    | nil => simp [inferColumnType, dropnaEmpty, isNumericDtype, isIntegerDtype]
    | cons a as =>
      have hne : (a :: as : List Int) ≠ [] := by simp
      by_cases hex : ∃ v ∈ a :: as, int32UpperBound < v ∨ v < int32LowerBound
      · rw [if_pos hex]
        have hL : intColumnHasLarge (a :: as) = true := (intColumnHasLarge_iff hne).mpr hex
        simp [inferColumnType, dropnaEmpty, isNumericDtype, isIntegerDtype, intColumnVals, hL]
      · rw [if_neg hex]
        have hL : intColumnHasLarge (a :: as) = false := by
          cases hc : intColumnHasLarge (a :: as) with
          | false => rfl
          | true => exact absurd ((intColumnHasLarge_iff hne).mp hc) hex
        simp [inferColumnType, dropnaEmpty, isNumericDtype, isIntegerDtype, intColumnVals,
          hasFloatsCheck, hL]
  · intro vals
    by_cases hde : dropnaEmpty (PColumn.floats vals) = true
    · simp [inferColumnType, hde, isNumericDtype, isIntegerDtype]
    · simp [inferColumnType, hde, isNumericDtype, isIntegerDtype]

/-! ### Loader lemmas -/

theorem runRows_cons_exc {tt : List (String × String)} {cols : List String} {r : Row}
    {rest : List Row} {i ins errs : Nat}
    (hv : rowValues cols tt r.cells = none) :
    runRows tt cols (r :: rest) i ins errs =
      { ok := false, inserted := ins, errors := errs,
        commits := 0, rolledBack := false, sent := [] } := by
  conv_lhs => rw [runRows]
  rw [hv]

theorem runRows_cons_some {tt : List (String × String)} {cols : List String} {r : Row}
    {rest : List Row} {i ins errs : Nat} {vals : List Cell}
    (hv : rowValues cols tt r.cells = some vals) :
    runRows tt cols (r :: rest) i ins errs =
      (if r.driverOk then
        { runRows tt cols rest (i + 1) (ins + 1) errs with
            sent := vals :: (runRows tt cols rest (i + 1) (ins + 1) errs).sent,
            commits := (runRows tt cols rest (i + 1) (ins + 1) errs).commits +
              (if (i + 1) % 100 == 0 then 1 else 0) }
      else if 10 ≤ errs + 1 then
        { ok := false, inserted := ins, errors := errs + 1,
          commits := 0, rolledBack := true, sent := [] }
      else runRows tt cols rest (i + 1) ins (errs + 1)) := by
  conv_lhs => rw [runRows]
  rw [hv]

theorem runRows_no_abort (tt : List (String × String)) (cols : List String) :
    ∀ (rows : List Row) (i ins errs : Nat),
      (∀ r ∈ rows, (rowValues cols tt r.cells).isSome = true) →
      countFails rows + errs < 10 →
      (runRows tt cols rows i ins errs).errors = errs + countFails rows ∧
      (runRows tt cols rows i ins errs).inserted = ins + (rows.length - countFails rows) ∧
      (runRows tt cols rows i ins errs).rolledBack = false ∧
      (runRows tt cols rows i ins errs).ok =
        decide (0 < ins + (rows.length - countFails rows)) := by
  intro rows
  induction rows with
  | nil =>
    intro i ins errs _ hlt
    simp [runRows, countFails]
  | cons r rest ih =>
    intro i ins errs hok hlt
    obtain ⟨vals, hv⟩ := Option.isSome_iff_exists.mp (hok r (List.mem_cons_self _ _))
    have hokr : ∀ x ∈ rest, (rowValues cols tt x.cells).isSome = true :=
      fun x hx => hok x (List.mem_cons_of_mem _ hx)
    have hle : countFails rest ≤ rest.length := List.countP_le_length _
    rw [runRows_cons_some hv]
    cases hdr : r.driverOk with
    | true =>
      have hcf : countFails (r :: rest) = countFails rest := by
        simp [countFails, List.countP_cons, hdr]
      rw [hcf] at hlt ⊢
      obtain ⟨e1, e2, e3, e4⟩ := ih (i + 1) (ins + 1) errs hokr hlt
      have harg : ins + 1 + (rest.length - countFails rest) =
          ins + ((r :: rest).length - countFails rest) := by
        simp only [List.length_cons]
        omega
      simp only [hdr, if_true]
      refine ⟨?_, ?_, ?_, ?_⟩
      · simpa using e1
      · simp only [List.length_cons]
        simpa [harg, List.length_cons] using e2
      · simpa using e3
      · simpa [harg, List.length_cons] using e4
    | false =>
      have hcf : countFails (r :: rest) = countFails rest + 1 := by
        simp [countFails, List.countP_cons, hdr]
      rw [hcf] at hlt ⊢
      simp only [hdr, Bool.false_eq_true, if_false]
      rw [if_neg (by omega)]
      obtain ⟨e1, e2, e3, e4⟩ := ih (i + 1) ins (errs + 1) hokr (by omega)
      have harg : ins + (rest.length - countFails rest) =
          ins + ((r :: rest).length - (countFails rest + 1)) := by
        simp only [List.length_cons]
        omega
      refine ⟨by rw [e1]; omega, by rw [e2, harg], e3, by rw [e4, harg]⟩

theorem runRows_abort (tt : List (String × String)) (cols : List String) :
    ∀ (rows : List Row) (i ins errs : Nat),
      (∀ r ∈ rows, (rowValues cols tt r.cells).isSome = true) →
      errs ≤ 9 → 10 ≤ countFails rows + errs →
      (runRows tt cols rows i ins errs).ok = false ∧
      (runRows tt cols rows i ins errs).errors = 10 ∧
      (runRows tt cols rows i ins errs).rolledBack = true ∧
      (runRows tt cols rows i ins errs).inserted + (runRows tt cols rows i ins errs).errors =
        ins + errs + attemptsUntilAbort (10 - errs) rows := by
  intro rows
  induction rows with
  | nil =>
    intro i ins errs _ h9 h10
    simp [countFails] at h10
    omega
  | cons r rest ih =>
    intro i ins errs hok h9 h10
    obtain ⟨vals, hv⟩ := Option.isSome_iff_exists.mp (hok r (List.mem_cons_self _ _))
    have hokr : ∀ x ∈ rest, (rowValues cols tt x.cells).isSome = true :=
      fun x hx => hok x (List.mem_cons_of_mem _ hx)
    rw [runRows_cons_some hv]
    cases hdr : r.driverOk with
    | true =>
      have hcf : countFails (r :: rest) = countFails rest := by
        simp [countFails, List.countP_cons, hdr]
      rw [hcf] at h10
      obtain ⟨e1, e2, e3, e4⟩ := ih (i + 1) (ins + 1) errs hokr h9 h10
      have hatt : attemptsUntilAbort (10 - errs) (r :: rest) =
          1 + attemptsUntilAbort (10 - errs) rest := by
        simp [attemptsUntilAbort, hdr]
      simp only [hdr, if_true]
      refine ⟨by simpa using e1, by simpa using e2, by simpa using e3, ?_⟩
      simp only [hatt]
      have := e4
      simp only at this ⊢
      omega
    | false =>
      have hcf : countFails (r :: rest) = countFails rest + 1 := by
        simp [countFails, List.countP_cons, hdr]
      simp only [hdr, Bool.false_eq_true, if_false]
      by_cases h9e : errs = 9
      · subst h9e
        rw [if_pos (by omega)]
        have hatt : attemptsUntilAbort (10 - 9) (r :: rest) = 1 := by
          simp [attemptsUntilAbort, hdr]
        refine ⟨rfl, rfl, rfl, ?_⟩
        simp [hatt]
      · rw [if_neg (by omega)]
        have h8 : errs ≤ 8 := by omega
        rw [hcf] at h10
        obtain ⟨e1, e2, e3, e4⟩ := ih (i + 1) ins (errs + 1) hokr (by omega) (by omega)
        have hatt : attemptsUntilAbort (10 - errs) (r :: rest) =
            1 + attemptsUntilAbort (10 - (errs + 1)) rest := by
          have hk : ¬ (10 - errs ≤ 1) := by omega
          have hk2 : 10 - errs - 1 = 10 - (errs + 1) := by omega
          simp [attemptsUntilAbort, hdr, hk, hk2]
        refine ⟨e1, e2, e3, ?_⟩
        rw [e4, hatt]
        omega

theorem attemptsUntilAbort_le : ∀ (k : Nat) (rows : List Row),
    attemptsUntilAbort k rows ≤ rows.length := by
  intro k rows
  induction rows generalizing k with
  | nil => simp [attemptsUntilAbort]
  | cons r rest ih =>
    simp only [attemptsUntilAbort, List.length_cons]
    cases r.driverOk with
    | true =>
      simp only [if_true]
      have := ih k
      omega
    | false =>
      simp only [Bool.false_eq_true, if_false]
      by_cases hk : k ≤ 1
      · rw [if_pos hk]
        omega
      · rw [if_neg hk]
        have := ih (k - 1)
        omega

/-! ### Loader claims -/

/-- Claim C7: in any run in which no cell coercion raises an escaping
exception (the separate OverflowError failure mode is settled by the C8
theorem), the insertion-error threshold works as claimed: when accumulated
driver errors reach 10 the loader rolls back, returns False, and attempts
no further rows (it stops at the shortest prefix containing ten failures);
below the threshold every driver failure increments the counter and the
loop continues through all rows. -/
theorem loader_error_threshold (tt : List (String × String)) (cols : List String)
    (rows : List Row)
    (hok : ∀ r ∈ rows, (rowValues cols tt r.cells).isSome = true) :
    (10 ≤ countFails rows →
      (insertCsvData tt cols rows).ok = false ∧
      (insertCsvData tt cols rows).errors = 10 ∧
      (insertCsvData tt cols rows).rolledBack = true ∧
      (insertCsvData tt cols rows).inserted + (insertCsvData tt cols rows).errors =
        attemptsUntilAbort 10 rows ∧
      attemptsUntilAbort 10 rows ≤ rows.length) ∧
    (countFails rows < 10 →
      (insertCsvData tt cols rows).errors = countFails rows ∧
      (insertCsvData tt cols rows).rolledBack = false ∧
      (insertCsvData tt cols rows).inserted + (insertCsvData tt cols rows).errors =
        rows.length) := by
  unfold insertCsvData
  constructor
  · intro h10
    obtain ⟨e1, e2, e3, e4⟩ := runRows_abort tt cols rows 0 0 0 hok (by omega) (by omega)
    exact ⟨e1, e2, e3, by simpa using e4, attemptsUntilAbort_le 10 rows⟩
  · intro hlt
    obtain ⟨f1, f2, f3, _⟩ := runRows_no_abort tt cols rows 0 0 0 hok (by omega)
    have hle : countFails rows ≤ rows.length := List.countP_le_length _
    refine ⟨by simpa using f1, f3, ?_⟩
    rw [f1, f2]
    omega

/-- Witness for C7: ten failing rows abort with ten errors; one failure
below the threshold is counted and the run continues. -/
theorem loader_error_threshold_witness :
    (insertCsvData [] [] (List.replicate 10 (Row.mk [] false))).ok = false ∧
    (insertCsvData [] [] (List.replicate 10 (Row.mk [] false))).errors = 10 ∧
    (insertCsvData [] [] [Row.mk [] true, Row.mk [] false]).errors = 1 := by
  obtain ⟨e1, e2, _, _, _⟩ :=
    (loader_error_threshold [] [] (List.replicate 10 (Row.mk [] false)) (by decide)).1
      (by decide)
  obtain ⟨f1, _, _⟩ :=
    (loader_error_threshold [] [] [Row.mk [] true, Row.mk [] false] (by decide)).2 (by decide)
  refine ⟨e1, e2, ?_⟩
  rw [f1]
  decide

/-- Claim C8: the inner handler catches only ValueError and TypeError, so a
float() parse failure in an int or double column, and int() on nan, store
NULL as claimed; but int(float(val)) on an infinite float (the cell inf, or
any numeric string at or beyond the float64 overflow bound) raises
OverflowError, which neither the inner handler nor the per-row except Error
catches: the function-level except Exception returns False mid-loop, with
no NULL stored, no error counted, no rollback, and no further rows
attempted — contradicting the claim (never abort the row, only driver
failures counted) and the comment in the code itself that a failed conversion uses
NULL.  Evaluated below at the failing input, an inf cell in an int column
followed by a row the driver would accept. -/
theorem int_coercion_overflow_aborts_load :
    coerceValue "int" (some (Prim.strv "abc")) = some none ∧
    coerceValue "double" (some (Prim.strv "abc")) = some none ∧
    coerceValue "int" (some (Prim.strv "nan")) = some none ∧
    coerceValue "double" (some (Prim.strv "inf")) =
      some (some (Prim.floatv (PyFloat.inf false))) ∧
    coerceValue "int" (some (Prim.strv "inf")) = none ∧
    coerceValue "int" (some (Prim.floatv (PyFloat.inf false))) = none ∧
    (insertCsvData [("a", "int")] ["a"]
      [Row.mk [some (Prim.strv "inf")] true, Row.mk [] true]).ok = false ∧
    (insertCsvData [("a", "int")] ["a"]
      [Row.mk [some (Prim.strv "inf")] true, Row.mk [] true]).inserted = 0 ∧
    (insertCsvData [("a", "int")] ["a"]
      [Row.mk [some (Prim.strv "inf")] true, Row.mk [] true]).errors = 0 ∧
    (insertCsvData [("a", "int")] ["a"]
      [Row.mk [some (Prim.strv "inf")] true, Row.mk [] true]).rolledBack = false :=
  ⟨by decide, by decide, by decide, by decide, by decide, by decide, by decide, by decide,
    by decide, by decide⟩

/-- Claim C9 counterexample: one inserted row followed by ten driver
failures ends in the abort path, which returns False even though a row was
inserted, so success is not returned whenever at least one row was
inserted. -/
theorem loader_failure_despite_inserted_row :
    (insertCsvData [] [] (Row.mk [] true :: List.replicate 10 (Row.mk [] false))).inserted = 1 ∧
    (insertCsvData [] [] (Row.mk [] true :: List.replicate 10 (Row.mk [] false))).ok = false :=
  ⟨by decide, by decide⟩

/-- Claim C9, amended: when the run is aborted neither by the 10-error
threshold (fewer than ten driver failures) nor by an escaping coercion
exception (the value construction of every row succeeds; see the C8 theorem for
that abort, which also returns False regardless of inserted rows), the
loader returns success exactly when at least one row was inserted, so
success means a non-empty partial load. -/
theorem loader_success_iff_row_inserted (tt : List (String × String)) (cols : List String)
    (rows : List Row)
    (hok : ∀ r ∈ rows, (rowValues cols tt r.cells).isSome = true)
    (h : countFails rows < 10) :
    (insertCsvData tt cols rows).ok = true ↔ 0 < (insertCsvData tt cols rows).inserted := by
  unfold insertCsvData
  obtain ⟨_, e2, _, e4⟩ := runRows_no_abort tt cols rows 0 0 0 hok (by omega)
  rw [e2, e4]
  simp

/-- Witness for the amended C9 at a one-row load. -/
theorem loader_success_iff_row_inserted_witness :
    (insertCsvData [] [] [Row.mk [] true]).ok = true ↔
      0 < (insertCsvData [] [] [Row.mk [] true]).inserted :=
  loader_success_iff_row_inserted [] [] [Row.mk [] true] (by decide) (by decide)
